import Mathlib

/-!
Verification development for the adaptive EDI table extractor
(`extract_edi_adaptive.py` and its batch driver).  The Python source is
shallowly embedded: each regular expression of the source is transcribed
as an executable matcher on `List Char` with Python semantics (greedy
character classes, `$` matching at the end of the string or before a
final newline, `re.search` scanning start positions left to right,
`re.match` anchored at the start), strings are Lean `String`s, the
insertion-ordered Python dict of segments is an association list, and
the two table parsers are folds over row indices mirroring the source's
row loop with its read-only usage look-ahead.
-/

namespace EDI

/-! ### Python string primitives -/

/-- Python's ASCII whitespace set used by `str.strip`, `str.split` and the
regex class `\s` (Unicode whitespace beyond ASCII is out of scope). -/
def pySpace (c : Char) : Bool :=
  c = ' ' || c = '\t' || c = '\n' || c = '\r' || c = '\x0b' || c = '\x0c'

def isUpperA (c : Char) : Bool := 'A' ≤ c && c ≤ 'Z'
def isLowerA (c : Char) : Bool := 'a' ≤ c && c ≤ 'z'
def isDigitA (c : Char) : Bool := '0' ≤ c && c ≤ '9'

/-- Regex `\w` over ASCII. -/
def isWordA (c : Char) : Bool := isUpperA c || isLowerA c || isDigitA c || c = '_'

/-- Regex class `[A-Z0-9]`. -/
def isUpNum (c : Char) : Bool := isUpperA c || isDigitA c

def lstripL (l : List Char) : List Char := l.dropWhile pySpace

def rstripL (l : List Char) : List Char := (l.reverse.dropWhile pySpace).reverse

def pyStripL (l : List Char) : List Char := rstripL (lstripL l)

/-- Python `str.strip()`. -/
def pyStrip (s : String) : String := ⟨pyStripL s.data⟩

def pyWordsAux : List Char → List Char → List (List Char)
  | [], acc => if acc = [] then [] else [acc.reverse]
  | c :: cs, acc =>
      if pySpace c then
        if acc = [] then pyWordsAux cs [] else acc.reverse :: pyWordsAux cs []
      else pyWordsAux cs (c :: acc)

/-- Python `' '.join(s.split())`: collapse whitespace runs to single spaces
and trim, used for the Faurecia `format` column. -/
def wsCollapse (s : String) : String :=
  String.intercalate " " ((pyWordsAux s.data []).map (fun l => ⟨l⟩))

/-! ### Generic matcher pieces -/

/-- Consume a literal (first argument) from the front, return the rest. -/
def eatLit : List Char → List Char → Option (List Char)
  | [], l => some l
  | _ :: _, [] => none
  | c :: cs, d :: ds => if c = d then eatLit cs ds else none

/-- Regex `\s+` (greedy; in every use site the following pattern piece starts
with a non-whitespace character class, so the greedy run never backtracks). -/
def eatWs1 (l : List Char) : Option (List Char) :=
  match l with
  | c :: cs => if pySpace c then some (cs.dropWhile pySpace) else none
  | [] => none

/-- Greedy `p+` for a character class `p` (use sites have a following piece
disjoint from `p`). -/
def eatClass1 (p : Char → Bool) (l : List Char) : Option (List Char) :=
  match l with
  | c :: cs => if p c then some (cs.dropWhile p) else none
  | [] => none

/-- Exactly `n` characters of class `p`. -/
def eatN (p : Char → Bool) : Nat → List Char → Option (List Char)
  | 0, l => some l
  | _ + 1, [] => none
  | n + 1, c :: cs => if p c then eatN p n cs else none

/-- Python's `$`: end of string, or just before a newline at the end. -/
def dollarEnd (l : List Char) : Bool := l = [] || l = ['\n']

/-! ### The code-classification regexes -/

def isElemCodeL (l : List Char) : Bool :=
  match eatN isDigitA 4 l with
  | some r => dollarEnd r
  | none => false

/-- `re.match(r'^\d{4}$', code)`. -/
def isElemCode (s : String) : Bool := isElemCodeL s.data

def isGroupCodeL (l : List Char) : Bool :=
  match l with
  | c :: cs =>
      (c = 'S' || c = 'C') &&
        (match eatN isDigitA 3 cs with
         | some r => dollarEnd r
         | none => false)
  | [] => false

/-- `re.match(r'^[SC]\d{3}$', code)`. -/
def isGroupCode (s : String) : Bool := isGroupCodeL s.data

/-- `re.match(r'^[A-Z0-9]+\s*=', u)` — Faurecia usage continuation test. -/
def usageContF (s : String) : Bool :=
  match eatClass1 isUpNum s.data with
  | some r =>
      match r.dropWhile pySpace with
      | '=' :: _ => true
      | _ => false
  | none => false

def isQuote (c : Char) : Bool := c = '\'' || c = '"'

def eatEq (l : List Char) : Bool :=
  match l.dropWhile pySpace with
  | '=' :: _ => true
  | _ => false

def vdaCont1Core (l : List Char) : Bool :=
  match eatClass1 isUpNum l with
  | some r =>
      match r with
      | c :: cs => if isQuote c then eatEq cs else eatEq r
      | [] => eatEq r
  | none => false

/-- `re.match(r"^['\"]?[A-Z0-9]+['\"]?\s*=", u)` — VDA usage continuation
test, first alternative. -/
def vdaCont1 (s : String) : Bool :=
  match s.data with
  | c :: cs => if isQuote c then vdaCont1Core cs else vdaCont1Core (c :: cs)
  | [] => false

/-- `re.match(r'^[A-Z][a-z]+\s+[A-Z]', u)` — VDA usage continuation test,
second alternative (capitalized two-word phrase). -/
def vdaCont2 (s : String) : Bool :=
  match s.data with
  | c :: cs =>
      isUpperA c &&
        (match eatClass1 isLowerA cs with
         | some r =>
             (match eatWs1 r with
              | some r2 =>
                  (match r2 with
                   | d :: _ => isUpperA d
                   | [] => false)
              | none => false)
         | none => false)
  | [] => false

/-! ### VDA column-0 parse `^([SC]?\d{3,4})\s+(.+)$` -/

/-- Backtracking over the `\s+` run length (greedy, longest first): after
dropping `w` whitespace characters, `(.+)` takes the maximal newline-free
run, and `$` must follow. -/
def wsDescTry (l : List Char) : Nat → Option (List Char)
  | 0 => none
  | w + 1 =>
      let rest := l.drop (w + 1)
      let d := rest.takeWhile (fun c => c ≠ '\n')
      if d ≠ [] && dollarEnd (rest.drop d.length) then some d
      else wsDescTry l w

def vdaCodeDesc (pre : List Char) (body : List Char) (n : Nat) :
    Option (String × String) :=
  let code := body.take n
  if code.length = n && code.all isDigitA then
    let rest := body.drop n
    match wsDescTry rest (rest.takeWhile pySpace).length with
    | some d => some (⟨pre ++ code⟩, ⟨d⟩)
    | none => none
  else none

/-- `re.match(r'^([SC]?\d{3,4})\s+(.+)$', col0)` returning the two capture
groups; `\d{3,4}` is greedy (four digits tried before three). -/
def vdaCol0Match (s : String) : Option (String × String) :=
  match s.data with
  | c :: cs =>
      if c = 'S' || c = 'C' then
        match vdaCodeDesc [c] cs 4 with
        | some r => some r
        | none => vdaCodeDesc [c] cs 3
      else
        match vdaCodeDesc [] (c :: cs) 4 with
        | some r => some r
        | none => vdaCodeDesc [] (c :: cs) 3
  | [] => none

/-! ### Faurecia segment-header regexes -/

def segHdrAt (l : List Char) : Option String :=
  match eatLit "Segment:".data l with
  | some r =>
      let r2 := r.dropWhile pySpace
      let c3 := r2.take 3
      if c3.length = 3 && c3.all isUpperA then some ⟨c3⟩ else none
  | none => none

def segHdrSearchL : List Char → Option String
  | [] => none
  | c :: cs =>
      match segHdrAt (c :: cs) with
      | some r => some r
      | none => segHdrSearchL cs

/-- `re.search(r'Segment:\s*([A-Z]{3})', row_text)` returning the capture. -/
def segHdrSearch (s : String) : Option String := segHdrSearchL s.data

/-- Class `[\w\s/]` of the description capture. -/
def isDescClass (c : Char) : Bool := isWordA c || pySpace c || c = '/'

/-- Lazy `.*?` scan (never across a newline) for the first position where
`([A-Z][\w\s/]+)$` matches; since `\s ⊆ [\w\s/]`, the greedy capture run
absorbs everything up to the end of the string, so the capture matches
exactly when the whole remaining tail is in the class. -/
def descCapTry : List Char → Option (List Char)
  | [] => none
  | c :: cs =>
      if isUpperA c && cs ≠ [] && cs.all isDescClass then some (c :: cs)
      else if c = '\n' then none
      else descCapTry cs

def descAt (l : List Char) : Option (List Char) :=
  match eatLit "Pos.:".data l with
  | some r =>
      match eatClass1 isDigitA (r.dropWhile pySpace) with
      | some r2 => descCapTry r2
      | none => none
  | none => none

def descSearchL : List Char → Option (List Char)
  | [] => none
  | c :: cs =>
      match descAt (c :: cs) with
      | some r => some r
      | none => descSearchL cs

/-- `re.search(r'Pos\.:\s*\d+.*?([A-Z][\w\s/]+)$', row_text)` returning the
capture group. -/
def descSearch (s : String) : Option String :=
  (descSearchL s.data).map (fun l => ⟨l⟩)

/-! ### Format-detection regexes -/

def vdaDetectAt (l : List Char) : Bool :=
  match eatLit "Segment:".data l with
  | some r =>
      match eatWs1 r with
      | some r2 =>
          let c3 := r2.take 3
          if c3.length = 3 && c3.all isUpperA then
            match eatWs1 (r2.drop 3) with
            | some r3 =>
                match eatLit "Cons.".data r3 with
                | some r4 => (eatLit "No.:".data (r4.dropWhile pySpace)).isSome
                | none => false
            | none => false
          else false
      | none => false
  | none => false

def vdaDetectSearch : List Char → Bool
  | [] => false
  | c :: cs => vdaDetectAt (c :: cs) || vdaDetectSearch cs

/-- `re.search(r'Segment:\s+[A-Z]{3}\s+Cons\.\s*No\.:', text)`. -/
def vdaDetect (s : String) : Bool := vdaDetectSearch s.data

def scanNoNlLevel : List Char → Bool
  | [] => false
  | c :: cs => (eatLit "Level:".data (c :: cs)).isSome || (c ≠ '\n' && scanNoNlLevel cs)

def f1TailPos : List Char → Bool
  | [] => false
  | c :: cs =>
      (match eatLit "Pos.:".data (c :: cs) with
       | some r =>
           (match eatClass1 isDigitA (r.dropWhile pySpace) with
            | some r2 => scanNoNlLevel r2
            | none => false)
       | none => false)
      || (c ≠ '\n' && f1TailPos cs)

def f1At (l : List Char) : Bool :=
  match eatLit "Segment:".data l with
  | some r => f1TailPos r
  | none => false

def f1Search : List Char → Bool
  | [] => false
  | c :: cs => f1At (c :: cs) || f1Search cs

/-- `re.search(r'Segment:.*Pos\.:\s*\d+.*Level:', text)` (`.` does not match
newline). -/
def faureciaDetect1 (s : String) : Bool := f1Search s.data

def f2At (l : List Char) : Bool :=
  match eatLit "Segment:".data l with
  | some r =>
      match eatWs1 r with
      | some r2 =>
          match eatLit "Pos.:".data r2 with
          | some r3 =>
              match eatClass1 isDigitA (r3.dropWhile pySpace) with
              | some r4 =>
                  match eatWs1 r4 with
                  | some r5 => (eatLit "Level:".data r5).isSome
                  | none => false
              | none => false
          | none => false
      | none => false
  | none => false

def f2Search : List Char → Bool
  | [] => false
  | c :: cs => f2At (c :: cs) || f2Search cs

/-- `re.search(r'Segment:\s+Pos\.:\s*\d+\s+Level:', text)`. -/
def faureciaDetect2 (s : String) : Bool := f2Search s.data

def containsSubL (pat : List Char) : List Char → Bool
  | [] => decide (pat = [])
  | c :: cs => pat.isPrefixOf (c :: cs) || containsSubL pat cs

/-- Python `sub in text`. -/
def containsSub (pat s : String) : Bool := containsSubL pat.data s.data

def detectMnems : List (List Char) :=
  ["UNH".data, "BGM".data, "DTM".data, "NAD".data, "LIN".data, "MOA".data]

def mnemAt (l : List Char) : Bool :=
  detectMnems.any (fun m =>
    m.isPrefixOf l &&
      (match l.drop m.length with
       | [] => true
       | d :: _ => !isWordA d))

def mnemSearch : Option Char → List Char → Bool
  | _, [] => false
  | prev, c :: cs =>
      ((match prev with
        | none => true
        | some p => !isWordA p) && mnemAt (c :: cs))
      || mnemSearch (some c) cs

/-- `'Pos.:' in text and re.search(r'\b(UNH|BGM|DTM|NAD|LIN|MOA)\b', text)`. -/
def faureciaDetect3 (s : String) : Bool :=
  containsSub "Pos.:" s && mnemSearch none s.data

/-! ### `clean_description`

`re.sub(r'\s+[MC]\s+[MCN](\s+.*)?$', '', d)` then
`re.sub(r'\s+NOT\s+USED$', '', _)` then `strip()`.  Both patterns are
anchored at `$`, so at most one (the leftmost) occurrence is replaced:
after deleting a span that reaches `$`, at most a final newline remains
and cannot start a new match.  The greedy tail `(\s+.*)?$` matches a rest
`r` exactly when, writing `W` for the maximal whitespace prefix of `r` and
`D` for the maximal newline-free run after it, the remainder is empty or a
single final newline (which then survives the substitution). -/

def isMC (c : Char) : Bool := c = 'M' || c = 'C'

def isMCN (c : Char) : Bool := c = 'M' || c = 'C' || c = 'N'

/-- Number of characters of a rest `r` consumed by `(\s+.*)?$`, or `none`
if it does not match there. -/
def tail1Rest (r : List Char) : Option Nat :=
  let w := r.takeWhile pySpace
  if w = [] then (if r = [] then some 0 else none)
  else
    let rest1 := r.drop w.length
    let d := rest1.takeWhile (fun c => c ≠ '\n')
    let e := rest1.drop d.length
    if e = [] then some (w.length + d.length)
    else if e = ['\n'] then some (w.length + d.length)
    else none

/-- Span length of a match of `\s+[MC]\s+[MCN](\s+.*)?$` starting at the
head of `l`, if any. -/
def sub1At (l : List Char) : Option Nat :=
  let w1 := l.takeWhile pySpace
  if w1 = [] then none
  else
    match l.drop w1.length with
    | c1 :: r1 =>
        if isMC c1 then
          let w2 := r1.takeWhile pySpace
          if w2 = [] then none
          else
            match r1.drop w2.length with
            | c2 :: r2 =>
                if isMCN c2 then
                  match tail1Rest r2 with
                  | some n => some (w1.length + 1 + w2.length + 1 + n)
                  | none => none
                else none
            | [] => none
        else none
    | [] => none

def sub1Go : List Char → List Char
  | [] => []
  | c :: cs =>
      match sub1At (c :: cs) with
      | some n => (c :: cs).drop n
      | none => c :: sub1Go cs

/-- `re.sub(r'\s+[MC]\s+[MCN](\s+.*)?$', '', s)`. -/
def pySub1 (s : String) : String := ⟨sub1Go s.data⟩

/-- Span length of a match of `\s+NOT\s+USED$` starting at the head of `l`,
if any. -/
def sub2At (l : List Char) : Option Nat :=
  let w1 := l.takeWhile pySpace
  if w1 = [] then none
  else
    match eatLit "NOT".data (l.drop w1.length) with
    | some r1 =>
        let w2 := r1.takeWhile pySpace
        if w2 = [] then none
        else
          match eatLit "USED".data (r1.drop w2.length) with
          | some r2 =>
              if r2 = [] then some (l.length - r2.length)
              else if r2 = ['\n'] then some (l.length - r2.length)
              else none
          | none => none
    | none => none

def sub2Go : List Char → List Char
  | [] => []
  | c :: cs =>
      match sub2At (c :: cs) with
      | some n => (c :: cs).drop n
      | none => c :: sub2Go cs

/-- `re.sub(r'\s+NOT\s+USED$', '', s)`. -/
def pySub2 (s : String) : String := ⟨sub2Go s.data⟩

/-- `AdaptiveEDIExtractor.clean_description`. -/
def clean_description (s : String) : String :=
  if s = "" then "" else pyStrip (pySub2 (pySub1 s))

/-! ### Data model

The hierarchy of the produced JSON: segments (uniquely keyed by mnemonic,
stored in insertion order like a Python dict) own an ordered list of
items; an item is either a simple data element or a composite group of
elements.  The Python parsers mutate the most recent group through an
alias; the embedding makes that alias explicit as a key/index reference
into the segment map. -/

structure Element where
  champ : String
  description : String
  format : String
  valeur : String
  usage : String
  deriving Repr, DecidableEq

structure Group where
  groupe : String
  description : String
  champs : List Element
  deriving Repr, DecidableEq

inductive Item where
  | el : Element → Item
  | gr : Group → Item
  deriving Repr, DecidableEq

structure Segment where
  segment : String
  description : String
  elements : List Item
  deriving Repr, DecidableEq

instance : Inhabited Segment := ⟨⟨"", "", []⟩⟩

/-- `self.segments_dict`: insertion-ordered map from mnemonic to segment. -/
abbrev SegMap := List (String × Segment)

def containsKey (m : SegMap) (k : String) : Bool := (m.lookup k).isSome

/-- Apply `f` to the value stored under key `k` (Python's in-place mutation
of `segments_dict[k]`). -/
def updateAt (m : SegMap) (k : String) (f : Segment → Segment) : SegMap :=
  m.map (fun p => if p.1 = k then (p.1, f p.2) else p)

def appendItemToSeg (m : SegMap) (k : String) (it : Item) : SegMap :=
  updateAt m k (fun s => { s with elements := s.elements ++ [it] })

def modIdx (f : Item → Item) : List Item → Nat → List Item
  | [], _ => []
  | x :: xs, 0 => f x :: xs
  | x :: xs, n + 1 => x :: modIdx f xs n

def pushChamp (e : Element) : Item → Item
  | .gr g => .gr { g with champs := g.champs ++ [e] }
  | it => it

/-- Append an element to the group sitting at index `i` of segment `k`'s
elements (the embedding of appending through the `current_group` alias). -/
def appendElemToGroupAt (m : SegMap) (k : String) (i : Nat) (e : Element) : SegMap :=
  updateAt m k (fun s => { s with elements := modIdx (pushChamp e) s.elements i })

/-! ### Faurecia table parser (`_parse_faurecia_table`) -/

/-- One table row as extracted by the source adapter; `''` stands for an
absent/`None` cell (`str(cell).strip() if cell else ''`). -/
abbrev Row := List String

abbrev Table := List Row

def rowCleanOf (row : Row) : List String := row.map pyStrip

def rowTextOf (rc : List String) : String := String.intercalate " " rc

/-- The usage-consolidation look-ahead of the Faurecia parser: starting
from `usage_parts = [u0.strip()]`, scan forward from row `i + 1` while the
next row has at least 8 cells, its code column starts no new element or
group, and its usage column matches `^[A-Z0-9]+\s*=`; the loop is
read-only (the outer row loop revisits these rows, where their empty code
column produces nothing). -/
def faureciaUsageGo (table : Table) : Nat → Nat → List String → List String
  | _, 0, parts => parts
  | j, fuel + 1, parts =>
      if j < table.length then
        let nextRow := table.getD j []
        if nextRow = [] || nextRow.length < 8 then parts
        else
          let nrc := rowCleanOf nextRow
          let nextCode := nrc.getD 0 ""
          let nextUsage := nrc.getD 7 ""
          if nextCode ≠ "" && (isElemCode nextCode || isGroupCode nextCode) then parts
          else if nextUsage ≠ "" && usageContF (pyStrip nextUsage) then
            faureciaUsageGo table (j + 1) fuel (parts ++ [pyStrip nextUsage])
          else parts
      else parts

def faureciaUsage (table : Table) (i : Nat) (u0 : String) : String :=
  String.intercalate "\n"
    (faureciaUsageGo table (i + 1) (table.length + 1) [pyStrip u0])

/-- Parser state: the accumulating map, the currently open segment
mnemonic, and the `current_group` alias as a (segment key, element index)
reference. -/
structure FSt where
  m : SegMap
  cs : Option String
  cg : Option (String × Nat)
  deriving Repr

/-- Processing of one row (index `i`) of a Faurecia table. -/
def faureciaRow (table : Table) (st : FSt) (i : Nat) : FSt :=
  let row := table.getD i []
  if row = [] then st
  else
    let rc := rowCleanOf row
    let rt := rowTextOf rc
    match segHdrSearch rt with
    | some seg =>
        let desc :=
          match descSearch rt with
          | some d => pyStrip d
          | none => ""
        let m' :=
          if containsKey st.m seg then st.m
          else st.m ++ [(seg, ⟨seg, clean_description desc, []⟩)]
        ⟨m', some seg, none⟩
    | none =>
        match st.cs with
        | none => st
        | some cs =>
            let code := rc.getD 0 ""
            let description := clean_description (rc.getD 1 "")
            let fmt := if rc.getD 4 "" ≠ "" then wsCollapse (rc.getD 4 "") else ""
            let val := if rc.getD 6 "" ≠ "" then pyStrip (rc.getD 6 "") else ""
            let u0 := rc.getD 7 ""
            let usage := if u0 ≠ "" then faureciaUsage table i u0 else ""
            if isGroupCode code then
              let idx := ((st.m.lookup cs).getD default).elements.length
              ⟨appendItemToSeg st.m cs (.gr ⟨code, description, []⟩), some cs,
                some (cs, idx)⟩
            else if isElemCode code then
              let e : Element := ⟨code, description, fmt, val, usage⟩
              match st.cg with
              | some (gs, gi) => ⟨appendElemToGroupAt st.m gs gi e, some cs, st.cg⟩
              | none => ⟨appendItemToSeg st.m cs (.el e), some cs, st.cg⟩
            else st

/-- `AdaptiveEDIExtractor._parse_faurecia_table`. -/
def parseFaureciaTable (m : SegMap) (table : Table) : SegMap :=
  ((List.range table.length).foldl (faureciaRow table) ⟨m, none, none⟩).m

/-- Per-table step of `extract_faurecia_format`: tables with fewer than 5
rows are skipped as noise. -/
def faureciaTableStep (m : SegMap) (table : Table) : SegMap :=
  if table.length < 5 then m else parseFaureciaTable m table

/-! ### VDA 4932 parser (`_parse_vda_table`, `extract_vda4932_format`) -/

/-- The VDA usage-consolidation look-ahead (broader continuation test:
quoted coded value or capitalized two-word phrase). -/
def vdaUsageGo (table : Table) : Nat → Nat → List String → List String
  | _, 0, parts => parts
  | j, fuel + 1, parts =>
      if j < table.length then
        let nextRow := table.getD j []
        if nextRow = [] || nextRow.length < 4 then parts
        else
          let nrc := rowCleanOf nextRow
          let nextCode := nrc.getD 0 ""
          let nextUsage := nrc.getD 3 ""
          if nextCode ≠ "" && (isElemCode nextCode || isGroupCode nextCode) then parts
          else if nextUsage ≠ "" &&
              (vdaCont1 (pyStrip nextUsage) || vdaCont2 (pyStrip nextUsage)) then
            vdaUsageGo table (j + 1) fuel (parts ++ [pyStrip nextUsage])
          else parts
      else parts

def vdaUsage (table : Table) (i : Nat) (u0 : String) : String :=
  String.intercalate "\n" (vdaUsageGo table (i + 1) (table.length + 1) [pyStrip u0])

structure RowInfo where
  code : String
  description : String
  format : String
  valeur : String
  usage : String
  deriving Repr, DecidableEq

/-- The data the VDA parser extracts from row `i` (`none` when the row is
header noise or fails the code+description pattern and is skipped). -/
def vdaRowInfo (table : Table) (i : Nat) : Option RowInfo :=
  let row := table.getD i []
  if row.length < 2 then none
  else
    let rc := rowCleanOf row
    let col0 := rc.getD 0 ""
    let col1 := rc.getD 1 ""
    let col2 := rc.getD 2 ""
    let col3 := rc.getD 3 ""
    if col0 = "" || "S.Format".data.isPrefixOf col0.data || containsSub "Segment can/must" col0 then
      none
    else
      match vdaCol0Match col0 with
      | none => none
      | some (code, desc0) =>
          let usage :=
            if col3 ≠ "" && pyStrip col3 ≠ "--" then vdaUsage table i col3 else ""
          some ⟨code, clean_description (pyStrip desc0), pyStrip col1, pyStrip col2, usage⟩

/-- VDA parser state inside one table: the map and the `current_group`
alias (the owning segment is fixed for the whole table). -/
structure VSt where
  m : SegMap
  cg : Option (String × Nat)
  deriving Repr

def vdaRow (table : Table) (lastKey : String) (st : VSt) (i : Nat) : VSt :=
  match vdaRowInfo table i with
  | none => st
  | some r =>
      if isGroupCode r.code then
        let idx := ((st.m.lookup lastKey).getD default).elements.length
        ⟨appendItemToSeg st.m lastKey (.gr ⟨r.code, r.description, []⟩),
          some (lastKey, idx)⟩
      else if isElemCode r.code then
        let e : Element := ⟨r.code, r.description, r.format, r.valeur, r.usage⟩
        match st.cg with
        | some (gs, gi) => ⟨appendElemToGroupAt st.m gs gi e, st.cg⟩
        | none => ⟨appendItemToSeg st.m lastKey (.el e), st.cg⟩
      else st

/-- `AdaptiveEDIExtractor._parse_vda_table`: an empty segment map discards
the whole table; otherwise rows are attributed to the most recently
created segment of the document. -/
def parseVdaTable (m : SegMap) (table : Table) : SegMap :=
  if m = [] then m
  else
    let lastKey := (m.getLast?.getD ("", default)).1
    ((List.range table.length).foldl (vdaRow table lastKey) ⟨m, none⟩).m

/-- Per-table step of `extract_vda4932_format`: tables with fewer than 3
rows are skipped. -/
def vdaTableStep (m : SegMap) (table : Table) : SegMap :=
  if table.length < 3 then m else parseVdaTable m table

/-! ### VDA page-text segment headers

`re.finditer(r'Segment:\s+([A-Z]{3})\s+Cons\.\s*No\.:\s*(\d+)\s+Level:\s*(\d+)\s+(.*?)(?=\n|$)', text)`:
the lazy final capture with lookahead takes the rest of the current line. -/

def vdaHdrAt (l : List Char) : Option (String × String × List Char) :=
  match eatLit "Segment:".data l with
  | some r =>
      match eatWs1 r with
      | some r2 =>
          let c3 := r2.take 3
          if c3.length = 3 && c3.all isUpperA then
            match eatWs1 (r2.drop 3) with
            | some r3 =>
                match eatLit "Cons.".data r3 with
                | some r4 =>
                    match eatLit "No.:".data (r4.dropWhile pySpace) with
                    | some r5 =>
                        match eatClass1 isDigitA (r5.dropWhile pySpace) with
                        | some r6 =>
                            match eatWs1 r6 with
                            | some r7 =>
                                match eatLit "Level:".data r7 with
                                | some r8 =>
                                    match eatClass1 isDigitA (r8.dropWhile pySpace) with
                                    | some r9 =>
                                        match eatWs1 r9 with
                                        | some r10 =>
                                            let d := r10.takeWhile (fun c => c ≠ '\n')
                                            some (⟨c3⟩, ⟨d⟩, r10.drop d.length)
                                        | none => none
                                    | none => none
                                | none => none
                            | none => none
                        | none => none
                    | none => none
                | none => none
            | none => none
          else none
      | none => none
  | none => none

/-- All header matches of a page text, in order (the scan resumes after
each match end, i.e. at the newline terminating the matched line). -/
def vdaHeadersGo : Nat → List Char → List (String × String)
  | 0, _ => []
  | _ + 1, [] => []
  | fuel + 1, c :: cs =>
      match vdaHdrAt (c :: cs) with
      | some (code, desc, rest) => (code, pyStrip desc) :: vdaHeadersGo fuel rest
      | none => vdaHeadersGo fuel cs

def vdaHeaders (text : String) : List (String × String) :=
  vdaHeadersGo (text.data.length + 1) text.data

/-! ### Format detector (`detect_pdf_format`) -/

/-- All four detection rules of one page, used to describe the detector's
behaviour (any rule firing on a page stops the scan on that page). -/
def anyDetectRule (t : String) : Bool :=
  vdaDetect t || faureciaDetect1 t || faureciaDetect2 t || faureciaDetect3 t

def detectGo : List String → String
  | [] => "faurecia"
  | t :: ts =>
      if vdaDetect t then "vda4932"
      else if faureciaDetect1 t then "faurecia"
      else if faureciaDetect2 t then "faurecia"
      else if faureciaDetect3 t then "faurecia"
      else detectGo ts

/-- `AdaptiveEDIExtractor.detect_pdf_format`, over the texts of the pages
(`page.extract_text() or ""`): only the first 10 pages are inspected and
the scan returns at the first page on which any rule fires. -/
def detectPdfFormat (texts : List String) : String :=
  detectGo (texts.take 10)

/-! ### Standard descriptions (`add_standard_descriptions`) -/

def standard_descriptions : List (String × String) :=
  [("UNB", "Interchange header"), ("UNH", "Message header"),
   ("BGM", "Beginning of message"), ("DTM", "Date/time/period"),
   ("RFF", "Reference"), ("NAD", "Name and address"),
   ("CTA", "Contact information"), ("COM", "Communication contact"),
   ("TAX", "Duty/tax/fee details"), ("CUX", "Currencies"),
   ("PAT", "Payment terms basis"), ("PCD", "Percentage details"),
   ("MOA", "Monetary amount"), ("LIN", "Line item"),
   ("PIA", "Additional product id"), ("IMD", "Item description"),
   ("QTY", "Quantity"), ("ALI", "Additional information"),
   ("GIN", "Goods identity number"), ("GIR", "Related identification numbers"),
   ("QVR", "Quantity variances"), ("DOC", "Document/message details"),
   ("PRI", "Price details"), ("APR", "Additional price information"),
   ("RNG", "Range details"), ("LOC", "Place/location identification"),
   ("TOD", "Terms of delivery or transport"), ("PAC", "Package"),
   ("PCI", "Package identification"), ("ALC", "Allowance or charge"),
   ("RCS", "Requirements and conditions"), ("UNS", "Section control"),
   ("CNT", "Control total"), ("UNT", "Message trailer"),
   ("UNZ", "Interchange trailer"), ("FTX", "Free text"),
   ("FII", "Financial institution information"), ("MEA", "Measurements"),
   ("PAI", "Payment instructions")]

/-- The description after the enricher's first step: a truthy description
is re-normalized (`clean_description`), a falsy one is kept as is. -/
def renormalizedDesc (s : Segment) : String :=
  if s.description ≠ "" then clean_description s.description else s.description

/-- Per-segment effect of `add_standard_descriptions`: re-normalize a
truthy description, then replace it by the canonical name when it is empty
or a placeholder and the mnemonic is in the standard table. -/
def enrichSeg (k : String) (s : Segment) : Segment :=
  let d1 := renormalizedDesc s
  let d2 :=
    if d1 = "" || d1 = "0" || d1 = "1" then
      match standard_descriptions.lookup k with
      | some v => v
      | none => d1
    else d1
  { s with description := d2 }

/-- `AdaptiveEDIExtractor.add_standard_descriptions`. -/
def addStandardDescriptions (m : SegMap) : SegMap :=
  m.map (fun p => (p.1, enrichSeg p.1 p.2))

/-! ### Facade (`extract_all`, `save_to_json`, `process_pdf`) -/

/-- One PDF page as delivered by the source adapter: its extracted text
(`""` when `extract_text()` is falsy) and its extracted tables. -/
structure Page where
  text : String
  tables : List Table

/-- `extract_faurecia_format`: every table of every page, skipping tables
with fewer than 5 rows. -/
def extractFaureciaFormat (pages : List Page) : SegMap :=
  pages.foldl (fun m p => p.tables.foldl faureciaTableStep m) []

/-- `extract_vda4932_format`: per page, create segments from the page-text
headers, then parse each table with at least 3 rows. -/
def extractVdaFormat (pages : List Page) : SegMap :=
  pages.foldl
    (fun m p =>
      if p.text = "" then m
      else
        let m1 := (vdaHeaders p.text).foldl
          (fun m h =>
            if containsKey m h.1 then m else m ++ [(h.1, ⟨h.1, h.2, []⟩)]) m
        p.tables.foldl vdaTableStep m1)
    []

/-- The segment map accumulated by `extract_all` (format detection, the
matching extractor, then enrichment). -/
def extractAllMap (pages : List Page) : SegMap :=
  let fmt := detectPdfFormat (pages.map Page.text)
  let m := if fmt = "vda4932" then extractVdaFormat pages else extractFaureciaFormat pages
  addStandardDescriptions m

/-- `extract_all`'s return value: `list(self.segments_dict.values())`, in
dict insertion order. -/
def extractAllSegs (pages : List Page) : List Segment :=
  (extractAllMap pages).map Prod.snd

/-- Keys of the segment map in the order produced by Python's
`sorted(self.segments_dict.keys())` (modelled by insertion sort; keys are
distinct, so any correct sort produces the same list). -/
def sortedKeys (m : SegMap) : List String :=
  (m.map Prod.fst).insertionSort (· ≤ ·)

/-- The list written by `save_to_json`:
`[self.segments_dict[key] for key in sorted(self.segments_dict.keys())]`. -/
def saveList (m : SegMap) : List Segment :=
  (sortedKeys m).map (fun k => (m.lookup k).getD default)

/-- Output path derivation of `process_pdf`: spaces and hyphens of the
stem become underscores, under the fixed `export/` directory. -/
def outputJsonName (stem : String) : String :=
  "export/" ++ (String.map (fun c => if c = ' ' || c = '-' then '_' else c) stem) ++ ".json"

/-- `process_pdf` as a pure function: `none` models the soft-failure path
(no segments extracted, nothing written), `some (path, contents)` models a
write of the sorted segment list. -/
def processPdf (stem : String) (pages : List Page) : Option (String × List Segment) :=
  let m := extractAllMap pages
  if m.map Prod.snd = [] then none
  else some (outputJsonName stem, saveList m)

/-! ## Helper lemmas -/

theorem dropWhile_noWs (l : List Char) (h : l.all (fun c => !pySpace c) = true) :
    l.dropWhile pySpace = l := by
  cases l with
  | nil => rfl
  | cons c cs =>
      simp only [List.all_cons, Bool.and_eq_true, Bool.not_eq_true'] at h
      simp [List.dropWhile, h.1]

theorem pyStripL_noWs (l : List Char) (h : l.all (fun c => !pySpace c) = true) :
    pyStripL l = l := by
  unfold pyStripL lstripL rstripL
  rw [dropWhile_noWs l h, dropWhile_noWs l.reverse (by simpa using h), List.reverse_reverse]

theorem takeWhile_pySpace_noWs (l : List Char) (h : l.all (fun c => !pySpace c) = true) :
    l.takeWhile pySpace = [] := by
  cases l with
  | nil => rfl
  | cons c cs =>
      simp only [List.all_cons, Bool.and_eq_true, Bool.not_eq_true'] at h
      simp [List.takeWhile, h.1]

theorem sub1Go_noWs (l : List Char) (h : l.all (fun c => !pySpace c) = true) :
    sub1Go l = l := by
  induction l with
  | nil => rfl
  | cons c cs ih =>
      have h' : (c :: cs).takeWhile pySpace = [] := takeWhile_pySpace_noWs _ h
      simp only [List.all_cons, Bool.and_eq_true] at h
      simp [sub1Go, sub1At, h', ih h.2]

theorem sub2Go_noWs (l : List Char) (h : l.all (fun c => !pySpace c) = true) :
    sub2Go l = l := by
  induction l with
  | nil => rfl
  | cons c cs ih =>
      have h' : (c :: cs).takeWhile pySpace = [] := takeWhile_pySpace_noWs _ h
      simp only [List.all_cons, Bool.and_eq_true] at h
      simp [sub2Go, sub2At, h', ih h.2]

/-- On a whitespace-free string `clean_description` is the identity. -/
theorem clean_description_noWs (s : String) (h : s.data.all (fun c => !pySpace c) = true) :
    clean_description s = s := by
  unfold clean_description
  split
  · rename_i he; exact he.symm
  · show pyStrip (pySub2 (pySub1 s)) = s
    unfold pySub1 pySub2 pyStrip
    rw [sub1Go_noWs s.data h, sub2Go_noWs s.data h, pyStripL_noWs s.data h]

theorem lookup_map_enrich (f : String → Segment → Segment) (m : SegMap) (k : String) :
    (m.map (fun p => (p.1, f p.1 p.2))).lookup k = (m.lookup k).map (f k) := by
  induction m with
  | nil => rfl
  | cons p t ih =>
      obtain ⟨a, b⟩ := p
      by_cases h : k = a
      · subst h; simp [List.lookup]
      · simp [List.lookup, ih, beq_false_of_ne h]

theorem detectGo_cases (l : List String) :
    detectGo l = "faurecia" ∨ detectGo l = "vda4932" := by
  induction l with
  | nil => left; rfl
  | cons t ts ih =>
      simp only [detectGo]
      split
      · right; rfl
      split
      · left; rfl
      split
      · left; rfl
      split
      · left; rfl
      exact ih

theorem detectGo_default (l : List String) (h : ∀ t ∈ l, anyDetectRule t = false) :
    detectGo l = "faurecia" := by
  induction l with
  | nil => rfl
  | cons t ts ih =>
      have ht := h t (List.mem_cons_self t ts)
      simp only [anyDetectRule, Bool.or_eq_false_iff] at ht
      simp only [detectGo, ht.1.1.1, ht.1.1.2, ht.1.2, ht.2, if_false]
      exact ih (fun u hu => h u (List.mem_cons_of_mem t hu))

theorem detectGo_vda (l : List String) (i : Nat) (hi : i < l.length)
    (hv : vdaDetect (l.getD i "") = true)
    (hj : ∀ j, j < i → anyDetectRule (l.getD j "") = false) :
    detectGo l = "vda4932" := by
  induction l generalizing i with
  | nil => exact absurd hi (Nat.not_lt_zero i)
  | cons t ts ih =>
      cases i with
      | zero =>
          have h0 : (t :: ts).getD 0 "" = t := rfl
          rw [h0] at hv
          simp [detectGo, hv]
      | succ n =>
          have ht := hj 0 (Nat.succ_pos n)
          have h0 : (t :: ts).getD 0 "" = t := rfl
          rw [h0] at ht
          simp only [anyDetectRule, Bool.or_eq_false_iff] at ht
          have hs : (t :: ts).getD (n + 1) "" = ts.getD n "" := rfl
          rw [hs] at hv
          simp [detectGo, ht.1.1.1, ht.1.1.2, ht.1.2, ht.2]
          exact ih n (Nat.lt_of_succ_lt_succ hi) hv
            (fun j hjlt => hj (j + 1) (Nat.succ_lt_succ hjlt))

/-! ## The claims -/

/-- **C3, counterexample.** The description normalizer is not idempotent:
the `$`-anchored `re.sub` removes only the last trailing `NOT USED`, so a
doubled suffix needs two passes (`"A NOT USED NOT USED"` normalizes to
`"A NOT USED"`, which normalizes again to `"A"`). -/
theorem C3_counterexample :
    clean_description (clean_description "A NOT USED NOT USED") ≠
      clean_description "A NOT USED NOT USED" := by decide

/-- **C3, amended.** Empty input yields the empty string, and the
normalizer is idempotent on every whitespace-free string (on which it is
the identity); full idempotence over all strings fails. -/
theorem C3_amended :
    clean_description "" = "" ∧
    ∀ s : String, s.data.all (fun c => !pySpace c) = true →
      clean_description (clean_description s) = clean_description s := by
  refine ⟨rfl, fun s h => ?_⟩
  rw [clean_description_noWs s h, clean_description_noWs s h]

/-- **C3, witness.** -/
theorem C3_witness :
    clean_description (clean_description "Reference") = clean_description "Reference" :=
  C3_amended.2 "Reference" (by decide)

/-- **C6.** Under the Faurecia convention a table with fewer than 5 rows
is skipped entirely: the per-table step returns the segment map unchanged
(and, being a total function, raises nothing). -/
theorem C6_theorem (m : SegMap) (table : Table) (h : table.length < 5) :
    faureciaTableStep m table = m := by
  unfold faureciaTableStep
  rw [if_pos h]

/-- **C6, witness**: a concrete 4-row table contributes nothing. -/
theorem C6_witness :
    faureciaTableStep [("NAD", ⟨"NAD", "", []⟩)]
      [["Segment: BGM"], ["3035", "x"], ["1131", "y"], ["3055", "z"]] =
      [("NAD", ⟨"NAD", "", []⟩)] :=
  C6_theorem _ _ (by decide)

/-- **C10.** If the segment map is empty, the VDA table parser discards
the whole table: it returns the (empty) map unchanged, so the
last-segment lookup (`list(values)[-1]`) is never evaluated on an empty
map. -/
theorem C10_theorem (table : Table) : parseVdaTable [] table = [] := by
  unfold parseVdaTable
  rw [if_pos rfl]

/-- **C2, counterexample.** The VDA rule does not have priority over the
Faurecia rules across pages: a first page matching Faurecia rule 4
(`Pos.:` plus a known mnemonic) decides the format before a later page
matching the VDA pattern is ever inspected. -/
theorem C2_counterexample :
    vdaDetect "Segment: NAD Cons. No.: 14" = true ∧
    detectPdfFormat ["Pos.: UNH", "Segment: NAD Cons. No.: 14"] = "faurecia" := by
  decide

/-- **C2, amended.** The detector always returns one of
`{faurecia, vda4932}`; if no rule fires on any of the first 10 pages the
result is `faurecia`; and the VDA rule decides only page-locally: if some
page among the first 10 matches the VDA pattern and no *earlier* page
fires any rule, the result is `vda4932`. -/
theorem C2_amended :
    (∀ texts : List String,
        detectPdfFormat texts = "faurecia" ∨ detectPdfFormat texts = "vda4932") ∧
    (∀ texts : List String,
        (∀ t ∈ texts.take 10, anyDetectRule t = false) →
        detectPdfFormat texts = "faurecia") ∧
    (∀ (texts : List String) (i : Nat),
        i < (texts.take 10).length →
        vdaDetect ((texts.take 10).getD i "") = true →
        (∀ j, j < i → anyDetectRule ((texts.take 10).getD j "") = false) →
        detectPdfFormat texts = "vda4932") :=
  ⟨fun texts => detectGo_cases (texts.take 10),
   fun texts h => detectGo_default (texts.take 10) h,
   fun texts i hi hv hj => detectGo_vda (texts.take 10) i hi hv hj⟩

/-- **C2, witness.** -/
theorem C2_witness :
    (detectPdfFormat ["z"] = "faurecia" ∨ detectPdfFormat ["z"] = "vda4932") ∧
    detectPdfFormat ["z"] = "faurecia" ∧
    detectPdfFormat ["Segment: NAD Cons. No.: 7"] = "vda4932" :=
  ⟨C2_amended.1 ["z"],
   C2_amended.2.1 ["z"] (by decide),
   C2_amended.2.2 ["Segment: NAD Cons. No.: 7"] 0 (by decide) (by decide)
     (fun j hj => absurd hj (Nat.not_lt_zero j))⟩

/-- **C8.** For every segment stored in the map, if its re-normalized
description is empty or a placeholder (`""`, `"0"`, `"1"`) and its
mnemonic is in the fixed standard table, enrichment replaces the
description by the canonical English name; a segment with an empty
description whose mnemonic is not in the table keeps the empty
description (and nothing fails). -/
theorem C8_theorem :
    (∀ (m : SegMap) (k : String) (seg : Segment) (name : String),
        m.lookup k = some seg →
        (renormalizedDesc seg = "" ∨ renormalizedDesc seg = "0" ∨ renormalizedDesc seg = "1") →
        standard_descriptions.lookup k = some name →
        (addStandardDescriptions m).lookup k = some { seg with description := name }) ∧
    (∀ (m : SegMap) (k : String) (seg : Segment),
        m.lookup k = some seg → seg.description = "" →
        standard_descriptions.lookup k = none →
        (addStandardDescriptions m).lookup k = some seg) := by
  constructor
  · intro m k seg name hm hd hstd
    unfold addStandardDescriptions
    rw [lookup_map_enrich enrichSeg m k, hm]
    simp only [Option.map_some']
    rcases hd with h | h | h <;> simp [enrichSeg, h, hstd]
  · intro m k seg hm hdesc hstd
    unfold addStandardDescriptions
    rw [lookup_map_enrich enrichSeg m k, hm]
    simp only [Option.map_some']
    have hr : renormalizedDesc seg = "" := by simp [renormalizedDesc, hdesc]
    simp [enrichSeg, hr, hstd, ← hdesc]

/-- **C8, witness**: `"MOA"` with empty description is enriched to
`"Monetary amount"`, and an unknown mnemonic keeps its empty description. -/
theorem C8_witness :
    (addStandardDescriptions [("MOA", ⟨"MOA", "", []⟩)]).lookup "MOA" =
      some ⟨"MOA", "Monetary amount", []⟩ ∧
    (addStandardDescriptions [("XXX", ⟨"XXX", "", []⟩)]).lookup "XXX" =
      some ⟨"XXX", "", []⟩ :=
  ⟨C8_theorem.1 [("MOA", ⟨"MOA", "", []⟩)] "MOA" ⟨"MOA", "", []⟩ "Monetary amount"
     (by decide) (Or.inl (by decide)) (by decide),
   C8_theorem.2 [("XXX", ⟨"XXX", "", []⟩)] "XXX" ⟨"XXX", "", []⟩
     (by decide) rfl (by decide)⟩

/-- **C7.** Document-level soft failure and silent row skipping: when the
extraction produces an empty segment map, `process_pdf` writes no file;
a Faurecia row that is no segment header and whose code column matches
neither the element nor the group pattern leaves the parser state
untouched; and a VDA row that is skipped (too short, header noise, or
failing the code+description pattern) leaves the parser state untouched.
All three paths are total functions — no error is raised. -/
theorem C7_theorem :
    (∀ (stem : String) (pages : List Page),
        extractAllSegs pages = [] → processPdf stem pages = none) ∧
    (∀ (table : Table) (st : FSt) (i : Nat),
        segHdrSearch (rowTextOf (rowCleanOf (table.getD i []))) = none →
        isGroupCode ((rowCleanOf (table.getD i [])).getD 0 "") = false →
        isElemCode ((rowCleanOf (table.getD i [])).getD 0 "") = false →
        faureciaRow table st i = st) ∧
    (∀ (table : Table) (lastKey : String) (st : VSt) (i : Nat),
        vdaRowInfo table i = none →
        vdaRow table lastKey st i = st) := by
  refine ⟨?_, ?_, ?_⟩
  · intro stem pages h
    have h' : (extractAllMap pages).map Prod.snd = [] := h
    simp [processPdf, h']
  · intro table st i h1 h2 h3
    obtain ⟨m0, cs0, cg0⟩ := st
    simp only [faureciaRow]
    split
    · rfl
    · rw [h1]
      cases cs0 with
      | none => rfl
      | some c =>
          rw [h2, h3]
          simp
  · intro table lastKey st i h
    simp only [vdaRow, h]

/-- **C7, witness.** -/
theorem C7_witness :
    processPdf "doc stem" [] = none ∧
    faureciaRow [["junk"]] ⟨[], some "NAD", none⟩ 0 = ⟨[], some "NAD", none⟩ ∧
    vdaRow [["only"]] "NAD" ⟨[("NAD", ⟨"NAD", "", []⟩)], none⟩ 0 =
      ⟨[("NAD", ⟨"NAD", "", []⟩)], none⟩ :=
  ⟨C7_theorem.1 "doc stem" [] (by decide),
   C7_theorem.2.1 [["junk"]] ⟨[], some "NAD", none⟩ 0 (by decide) (by decide) (by decide),
   C7_theorem.2.2 [["only"]] "NAD" ⟨[("NAD", ⟨"NAD", "", []⟩)], none⟩ 0 (by decide)⟩

theorem elemL_not_groupL (l : List Char) (h : isElemCodeL l = true) :
    isGroupCodeL l = false := by
  cases l with
  | nil => rfl
  | cons c cs =>
      unfold isElemCodeL at h
      rw [eatN] at h
      by_cases hc : isDigitA c = true
      · have hS : c ≠ 'S' := fun he => by rw [he] at hc; exact absurd hc (by decide)
        have hC : c ≠ 'C' := fun he => by rw [he] at hc; exact absurd hc (by decide)
        unfold isGroupCodeL
        simp [hS, hC]
      · rw [if_neg hc] at h
        simp at h

theorem elem_not_group (s : String) (h : isElemCode s = true) : isGroupCode s = false :=
  elemL_not_groupL s.data h

/-! ### C1: the Faurecia usage-consolidation example rows -/

/-- The spec's example element row. -/
def fRowElem : Row :=
  ["3035", "Party qualifier", "", "", "CDS", "", "1", "'ZZZ' = Mutually defined"]

/-- The spec's example continuation row. -/
def fRowCont : Row := ["", "", "", "", "", "", "", "'123' = Other code"]

/-- A minimal Faurecia table holding the two example rows under an open
segment. -/
def c1Table : Table := [["Segment: NAD"], fRowElem, fRowCont]

/-- The element the parser actually produces for the example rows. -/
def c1Elem : Element :=
  ⟨"3035", "Party qualifier", "CDS", "1", "'ZZZ' = Mutually defined"⟩

/-- **C1, counterexample.** The continuation row's usage cell
`'123' = Other code` starts with a quote, which the Faurecia continuation
pattern `^[A-Z0-9]+\s*=` does not admit (unlike the VDA pattern), so the
look-ahead folds nothing: exactly one element is emitted, but its usage is
only the first cell, not the newline-join of both. -/
theorem C1_counterexample :
    parseFaureciaTable [] c1Table = [("NAD", ⟨"NAD", "", [.el c1Elem]⟩)] ∧
    c1Elem.usage ≠ "'ZZZ' = Mutually defined\n'123' = Other code" := by
  decide

theorem faureciaUsage_c1 (table : Table) (i : Nat)
    (h2 : table.getD (i + 1) [] = fRowCont) :
    faureciaUsage table i "'ZZZ' = Mutually defined" = "'ZZZ' = Mutually defined" := by
  unfold faureciaUsage
  simp only [faureciaUsageGo]
  by_cases hlt : i + 1 < table.length
  · rw [if_pos hlt, h2]
    rw [if_neg (by decide)]
    rw [if_neg (by decide)]
    rw [if_neg (by decide)]
    decide
  · rw [if_neg hlt]
    decide

/-- **C1, amended.** For any table in which the example element row is
immediately followed by the example continuation row, the parser emits
exactly one element for the pair: the element row appends a single element
whose usage is `'ZZZ' = Mutually defined` alone (the quoted continuation
line fails the Faurecia pattern `^[A-Z0-9]+\s*=` and is not folded in),
and the continuation row itself leaves any parser state unchanged. -/
theorem C1_amended (table : Table) (i : Nat) (st : FSt) (c : String)
    (h1 : table.getD i [] = fRowElem)
    (h2 : table.getD (i + 1) [] = fRowCont)
    (h3 : st.cs = some c) (h4 : st.cg = none) :
    faureciaRow table st i = ⟨appendItemToSeg st.m c (.el c1Elem), some c, none⟩ ∧
    ∀ st2 : FSt, faureciaRow table st2 (i + 1) = st2 := by
  obtain ⟨m0, cs0, cg0⟩ := st
  have h3' : cs0 = some c := h3
  have h4' : cg0 = none := h4
  subst h3' h4'
  constructor
  · have hus := faureciaUsage_c1 table i h2
    simp only [faureciaRow]
    rw [h1, if_neg (by decide)]
    rw [show (rowCleanOf fRowElem).getD 7 "" = "'ZZZ' = Mutually defined" from rfl, hus]
    rfl
  · intro st2
    obtain ⟨m2, cs2, cg2⟩ := st2
    simp only [faureciaRow]
    rw [h2, if_neg (by decide)]
    rw [show segHdrSearch (rowTextOf (rowCleanOf fRowCont)) = none from rfl]
    cases cs2 with
    | none => rfl
    | some c2 =>
        rw [show isGroupCode ((rowCleanOf fRowCont).getD 0 "") = false from rfl]
        rw [show isElemCode ((rowCleanOf fRowCont).getD 0 "") = false from rfl]
        simp

/-- **C1, witness.** -/
theorem C1_witness :
    faureciaRow c1Table ⟨[("NAD", ⟨"NAD", "", []⟩)], some "NAD", none⟩ 1 =
      ⟨appendItemToSeg [("NAD", ⟨"NAD", "", []⟩)] "NAD" (.el c1Elem), some "NAD", none⟩ ∧
    faureciaRow c1Table ⟨[("NAD", ⟨"NAD", "", []⟩)], some "NAD", none⟩ 2 =
      ⟨[("NAD", ⟨"NAD", "", []⟩)], some "NAD", none⟩ :=
  have h := C1_amended c1Table 1 ⟨[("NAD", ⟨"NAD", "", []⟩)], some "NAD", none⟩ "NAD"
    (by decide) (by decide) rfl rfl
  ⟨h.1, h.2 ⟨[("NAD", ⟨"NAD", "", []⟩)], some "NAD", none⟩⟩

/-! ### C4: segment ordering of the output -/

theorem lookup_of_mem_keys (m : SegMap) (k : String) (h : k ∈ m.map Prod.fst) :
    ∃ s, m.lookup k = some s ∧ (k, s) ∈ m := by
  induction m with
  | nil => simp at h
  | cons p t ih =>
      obtain ⟨a, b⟩ := p
      by_cases hk : k = a
      · subst hk
        exact ⟨b, by simp [List.lookup], by simp⟩
      · simp only [List.map_cons, List.mem_cons] at h
        rcases h with h | h
        · exact absurd h hk
        · obtain ⟨s, hs1, hs2⟩ := ih h
          exact ⟨s, by simp [List.lookup, beq_false_of_ne hk, hs1],
            List.mem_cons_of_mem _ hs2⟩

/-- The pages of the C4 counterexample: one Faurecia-format page whose
single table declares segment `NAD` before segment `BGM`. -/
def c4Pages : List Page :=
  [⟨"", [[["Segment: NAD"], [], [], [], ["Segment: BGM"]]]⟩]

/-- **C4, counterexample.** The facade `extract_all` returns
`list(segments_dict.values())`, i.e. insertion (document) order: a
document declaring `NAD` before `BGM` yields the mnemonic sequence
`["NAD", "BGM"]`, which is not ascending.  Only the list written by
`save_to_json` is sorted. -/
theorem C4_counterexample :
    (extractAllSegs c4Pages).map Segment.segment = ["NAD", "BGM"] ∧
    ¬ List.Pairwise (· < ·) ((extractAllSegs c4Pages).map Segment.segment) := by
  have h1 : (extractAllSegs c4Pages).map Segment.segment = ["NAD", "BGM"] := by decide
  refine ⟨h1, ?_⟩
  rw [h1]
  intro hp
  have h2 : "NAD" < "BGM" := List.rel_of_pairwise_cons hp (by simp)
  rw [String.lt_iff_toList_lt] at h2
  revert h2
  decide

/-- **C4, amended.** The sorted guarantee holds of the array emitted to
the JSON output (`save_to_json`): for every segment map with distinct keys
whose entries carry their own mnemonic, the mnemonics of the saved list
are strictly ascending (hence duplicate-free); `extract_all`'s return
value itself is in insertion order. -/
theorem C4_amended (m : SegMap)
    (hnd : (m.map Prod.fst).Nodup)
    (hwf : ∀ p ∈ m, (p : String × Segment).2.segment = p.1) :
    List.Pairwise (· < ·) ((saveList m).map Segment.segment) := by
  have hperm : List.Perm (sortedKeys m) (m.map Prod.fst) :=
    List.perm_insertionSort (· ≤ ·) (m.map Prod.fst)
  have hmap : (saveList m).map Segment.segment = sortedKeys m := by
    unfold saveList
    rw [List.map_map]
    have hcongr : ∀ k ∈ sortedKeys m,
        (Segment.segment ∘ fun k => (m.lookup k).getD default) k = id k := by
      intro k hk
      obtain ⟨s, hs1, hs2⟩ := lookup_of_mem_keys m k (hperm.mem_iff.mp hk)
      have hseg := hwf (k, s) hs2
      simp only [Function.comp_apply, hs1, Option.getD_some, id_eq]
      exact hseg
    rw [List.map_congr_left hcongr, List.map_id]
  rw [hmap]
  have hsorted : List.Pairwise (· ≤ ·) (sortedKeys m) :=
    List.sorted_insertionSort (· ≤ ·) (m.map Prod.fst)
  have hnd' : (sortedKeys m).Nodup := hperm.nodup_iff.mpr hnd
  exact (hsorted.and hnd').imp (fun h => lt_of_le_of_ne h.1 h.2)

/-- **C4, witness.** -/
theorem C4_witness :
    List.Pairwise (· < ·)
      ((saveList [("NAD", ⟨"NAD", "", []⟩), ("BGM", ⟨"BGM", "", []⟩)]).map
        Segment.segment) :=
  C4_amended [("NAD", ⟨"NAD", "", []⟩), ("BGM", ⟨"BGM", "", []⟩)]
    (by decide) (by decide)

/-! ### C5: the tree-structure invariant

The Python parsers append a fresh group to the open segment's element
list and then mutate it through the `current_group` alias; the embedding
makes the alias a (key, index) reference.  The invariant below states that
the reference always designates a group that is already present in the
map, i.e. every element pushed through the alias lands in a group that was
appended to its segment beforehand — and, the output being a tree by
construction, each element and group has exactly one parent. -/

/-- The group sitting at index `i` of segment `s`'s element list, if any. -/
def getGroupAt (m : SegMap) (s : String) (i : Nat) : Option Group :=
  match m.lookup s with
  | some seg =>
      match seg.elements.get? i with
      | some (.gr g) => some g
      | _ => none
  | none => none

/-- The `current_group` alias, when set, points at a group already stored
in the map. -/
def refInv (m : SegMap) (cg : Option (String × Nat)) : Bool :=
  match cg with
  | none => true
  | some (s, i) => (getGroupAt m s i).isSome

/-- The open segment, when set, is a key of the map. -/
def csInv (st : FSt) : Bool :=
  match st.cs with
  | none => true
  | some c => containsKey st.m c

theorem lookup_updateAt_self (m : SegMap) (k : String) (f : Segment → Segment) :
    (updateAt m k f).lookup k = (m.lookup k).map f := by
  induction m with
  | nil => rfl
  | cons p t ih =>
      obtain ⟨a, b⟩ := p
      show List.lookup k ((if a = k then (a, f b) else (a, b)) :: updateAt t k f) = _
      by_cases h : a = k
      · rw [if_pos h]
        subst h
        simp [List.lookup]
      · rw [if_neg h]
        have hne : (k == a) = false := beq_eq_false_iff_ne.mpr (fun he => h he.symm)
        simp [List.lookup, hne, ih]

theorem lookup_updateAt_ne (m : SegMap) (k k' : String) (f : Segment → Segment)
    (h : k' ≠ k) : (updateAt m k f).lookup k' = m.lookup k' := by
  induction m with
  | nil => rfl
  | cons p t ih =>
      obtain ⟨a, b⟩ := p
      show List.lookup k' ((if a = k then (a, f b) else (a, b)) :: updateAt t k f) = _
      by_cases ha : a = k
      · rw [if_pos ha]
        subst ha
        have hne : (k' == a) = false := beq_eq_false_iff_ne.mpr h
        simp [List.lookup, hne, ih]
      · rw [if_neg ha]
        cases hke : (k' == a) <;> simp [List.lookup, hke, ih]

theorem containsKey_updateAt (m : SegMap) (k k' : String) (f : Segment → Segment) :
    containsKey (updateAt m k f) k' = containsKey m k' := by
  by_cases h : k' = k
  · subst h
    unfold containsKey
    rw [lookup_updateAt_self]
    cases m.lookup k' <;> rfl
  · unfold containsKey
    rw [lookup_updateAt_ne m k k' f h]

theorem lookup_append_left (m l : SegMap) (k : String)
    (h : (m.lookup k).isSome = true) : (m ++ l).lookup k = m.lookup k := by
  induction m with
  | nil => simp [List.lookup] at h
  | cons p t ih =>
      obtain ⟨a, b⟩ := p
      cases hke : (k == a) with
      | true => simp [List.lookup, hke]
      | false =>
          simp only [List.lookup, hke] at h
          simp [List.lookup, hke, ih h]

theorem containsKey_append_self (m : SegMap) (k : String) (v : Segment) :
    containsKey (m ++ [(k, v)]) k = true := by
  induction m with
  | nil => simp [containsKey, List.lookup]
  | cons p t ih =>
      obtain ⟨a, b⟩ := p
      unfold containsKey at ih ⊢
      cases hke : (k == a) <;> simp [List.lookup, hke, ih]

theorem exists_of_getGroupAt (m : SegMap) (s : String) (i : Nat)
    (h : (getGroupAt m s i).isSome = true) :
    ∃ seg g, m.lookup s = some seg ∧ seg.elements.get? i = some (.gr g) := by
  unfold getGroupAt at h
  split at h
  · rename_i seg heq
    split at h
    · rename_i g hg
      exact ⟨seg, g, heq, hg⟩
    · simp at h
  · simp at h

theorem modIdx_get_self (f : Item → Item) (l : List Item) (i : Nat) :
    (modIdx f l i).get? i = (l.get? i).map f := by
  induction l generalizing i with
  | nil => cases i <;> rfl
  | cons x xs ih =>
      cases i with
      | zero => rfl
      | succ n => simpa [modIdx] using ih n

theorem containsKey_appendItemToSeg (m : SegMap) (k k' : String) (it : Item) :
    containsKey (appendItemToSeg m k it) k' = containsKey m k' :=
  containsKey_updateAt m k k' _

theorem containsKey_appendElemToGroupAt (m : SegMap) (k k' : String) (j : Nat)
    (e : Element) :
    containsKey (appendElemToGroupAt m k j e) k' = containsKey m k' :=
  containsKey_updateAt m k k' _

theorem getGroupAt_appendItemToSeg (m : SegMap) (k s : String) (i : Nat) (it : Item)
    (h : (getGroupAt m s i).isSome = true) :
    (getGroupAt (appendItemToSeg m k it) s i).isSome = true := by
  obtain ⟨seg, g, hm, hg⟩ := exists_of_getGroupAt m s i h
  unfold getGroupAt appendItemToSeg
  by_cases hks : s = k
  · subst hks
    rw [lookup_updateAt_self, hm]
    have hi : i < seg.elements.length := by
      by_contra hge
      rw [List.get?_eq_none.mpr (Nat.le_of_not_lt hge)] at hg
      exact absurd hg (by simp)
    show (match (seg.elements ++ [it]).get? i with
          | some (.gr g) => some g
          | _ => none).isSome = true
    rw [List.get?_append hi, hg]
    rfl
  · rw [lookup_updateAt_ne _ _ _ _ hks, hm]
    show (match seg.elements.get? i with
          | some (.gr g) => some g
          | _ => none).isSome = true
    rw [hg]
    rfl

theorem getGroupAt_append_entry (m : SegMap) (k : String) (v : Segment) (s : String)
    (i : Nat) (h : (getGroupAt m s i).isSome = true) :
    (getGroupAt (m ++ [(k, v)]) s i).isSome = true := by
  obtain ⟨seg, g, hm, hg⟩ := exists_of_getGroupAt m s i h
  unfold getGroupAt
  rw [lookup_append_left m _ s (by rw [hm]; rfl), hm]
  show (match seg.elements.get? i with
        | some (.gr g) => some g
        | _ => none).isSome = true
  rw [hg]
  rfl

theorem getGroupAt_appendElem_self (m : SegMap) (k : String) (j : Nat) (e : Element)
    (h : (getGroupAt m k j).isSome = true) :
    (getGroupAt (appendElemToGroupAt m k j e) k j).isSome = true := by
  obtain ⟨seg, g, hm, hg⟩ := exists_of_getGroupAt m k j h
  unfold getGroupAt appendElemToGroupAt
  rw [lookup_updateAt_self, hm]
  show (match (modIdx (pushChamp e) seg.elements j).get? j with
        | some (.gr g) => some g
        | _ => none).isSome = true
  rw [modIdx_get_self, hg]
  rfl

theorem getGroupAt_new_group (m : SegMap) (c : String) (g : Group)
    (hc : containsKey m c = true) :
    (getGroupAt (appendItemToSeg m c (.gr g)) c
      ((m.lookup c).getD default).elements.length).isSome = true := by
  unfold containsKey at hc
  cases hm : m.lookup c with
  | none => rw [hm] at hc; simp at hc
  | some seg =>
      unfold getGroupAt appendItemToSeg
      rw [lookup_updateAt_self, hm]
      show (match (seg.elements ++ [Item.gr g]).get? seg.elements.length with
            | some (.gr g) => some g
            | _ => none).isSome = true
      rw [List.get?_concat_length]
      rfl

/-- **C5.** Both parsers preserve the tree-structure invariant at every
row step: the open segment (if any) is a key of the map, and the
`current_group` alias (if any) designates a group already appended to its
owning segment, so every element pushed into a group lands in a group that
was appended to some segment beforehand, and the VDA owner segment stays
present.  Since both parsers start each table with no open group, the
invariant holds throughout, and the produced map is a strict tree by
construction (groups exist only inside a segment's element list, elements
only at top level or inside one group). -/
theorem C5_theorem :
    (∀ (table : Table) (st : FSt) (i : Nat),
        csInv st = true → refInv st.m st.cg = true →
        csInv (faureciaRow table st i) = true ∧
        refInv (faureciaRow table st i).m (faureciaRow table st i).cg = true) ∧
    (∀ (table : Table) (lastKey : String) (st : VSt) (i : Nat),
        containsKey st.m lastKey = true → refInv st.m st.cg = true →
        containsKey (vdaRow table lastKey st i).m lastKey = true ∧
        refInv (vdaRow table lastKey st i).m (vdaRow table lastKey st i).cg = true) := by
  constructor
  · intro table st i h1 h2
    obtain ⟨m0, cs0, cg0⟩ := st
    cases cs0 with
    | none =>
        simp only [faureciaRow]
        split
        · exact ⟨h1, h2⟩
        split
        · rename_i seg heq
          refine ⟨?_, rfl⟩
          simp only [csInv]
          split
          · rename_i hck
            exact hck
          · exact containsKey_append_self m0 seg _
        · exact ⟨h1, h2⟩
    | some c =>
        have h1' : containsKey m0 c = true := by simpa [csInv] using h1
        simp only [faureciaRow]
        split
        · exact ⟨h1, h2⟩
        split
        · rename_i seg heq
          refine ⟨?_, rfl⟩
          simp only [csInv]
          split
          · rename_i hck
            exact hck
          · exact containsKey_append_self m0 seg _
        · by_cases hgc : isGroupCode ((rowCleanOf (table.getD i [])).getD 0 "") = true
          · rw [if_pos hgc]
            refine ⟨?_, ?_⟩
            · simp only [csInv]
              rw [containsKey_appendItemToSeg]
              exact h1'
            · simp only [refInv]
              exact getGroupAt_new_group m0 c _ h1'
          · rw [if_neg hgc]
            by_cases hec : isElemCode ((rowCleanOf (table.getD i [])).getD 0 "") = true
            · rw [if_pos hec]
              cases cg0 with
              | some p =>
                  obtain ⟨gs, gi⟩ := p
                  simp only [refInv] at h2
                  refine ⟨?_, ?_⟩
                  · simp only [csInv]
                    rw [containsKey_appendElemToGroupAt]
                    exact h1'
                  · simp only [refInv]
                    exact getGroupAt_appendElem_self m0 gs gi _ h2
              | none =>
                  refine ⟨?_, rfl⟩
                  simp only [csInv]
                  rw [containsKey_appendItemToSeg]
                  exact h1'
            · rw [if_neg hec]
              exact ⟨h1, h2⟩
  · intro table lastKey st i h1 h2
    obtain ⟨m0, cg0⟩ := st
    cases hri : vdaRowInfo table i with
    | none =>
        simp only [vdaRow, hri]
        exact ⟨h1, h2⟩
    | some r =>
        simp only [vdaRow, hri]
        by_cases hgc : isGroupCode r.code = true
        · rw [if_pos hgc]
          refine ⟨?_, ?_⟩
          · rw [containsKey_appendItemToSeg]
            exact h1
          · simp only [refInv]
            exact getGroupAt_new_group m0 lastKey _ h1
        · rw [if_neg hgc]
          by_cases hec : isElemCode r.code = true
          · rw [if_pos hec]
            cases cg0 with
            | some p =>
                obtain ⟨gs, gi⟩ := p
                simp only [refInv] at h2
                refine ⟨?_, ?_⟩
                · rw [containsKey_appendElemToGroupAt]
                  exact h1
                · simp only [refInv]
                  exact getGroupAt_appendElem_self m0 gs gi _ h2
            | none =>
                refine ⟨?_, rfl⟩
                rw [containsKey_appendItemToSeg]
                exact h1
          · rw [if_neg hec]
            exact ⟨h1, h2⟩

/-- **C5, witness**: a concrete step in which an element lands inside an
already-appended group. -/
theorem C5_witness :
    (csInv (faureciaRow [["Segment: NAD"]] ⟨[], none, none⟩ 0) = true ∧
      refInv (faureciaRow [["Segment: NAD"]] ⟨[], none, none⟩ 0).m
        (faureciaRow [["Segment: NAD"]] ⟨[], none, none⟩ 0).cg = true) ∧
    (containsKey
        (vdaRow [["C082 Party identification details", "f", "v", "u"]] "NAD"
          ⟨[("NAD", ⟨"NAD", "", []⟩)], none⟩ 0).m "NAD" = true ∧
      refInv
        (vdaRow [["C082 Party identification details", "f", "v", "u"]] "NAD"
          ⟨[("NAD", ⟨"NAD", "", []⟩)], none⟩ 0).m
        (vdaRow [["C082 Party identification details", "f", "v", "u"]] "NAD"
          ⟨[("NAD", ⟨"NAD", "", []⟩)], none⟩ 0).cg = true) :=
  ⟨C5_theorem.1 [["Segment: NAD"]] ⟨[], none, none⟩ 0 rfl rfl,
   C5_theorem.2 [["C082 Party identification details", "f", "v", "u"]] "NAD"
     ⟨[("NAD", ⟨"NAD", "", []⟩)], none⟩ 0 (by decide) rfl⟩

/-- **C9.** In the VDA parser, a usage cell whose trimmed content is the
sentinel `"--"` is treated as absent: the row data carries an empty usage
(the look-ahead guarded by the sentinel test is never entered), and the
element emitted for such a row has `usage = ""`. -/
theorem C9_theorem (table : Table) (i : Nat) (r : RowInfo)
    (hr : vdaRowInfo table i = some r)
    (hd : pyStrip ((rowCleanOf (table.getD i [])).getD 3 "") = "--") :
    r.usage = "" ∧
    ∀ (lastKey : String) (st : VSt), st.cg = none → isElemCode r.code = true →
      vdaRow table lastKey st i =
        ⟨appendItemToSeg st.m lastKey (.el ⟨r.code, r.description, r.format, r.valeur, ""⟩),
          none⟩ := by
  have husage : r.usage = "" := by
    simp only [vdaRowInfo] at hr
    split at hr
    · exact absurd hr (by simp)
    · rw [hd] at hr
      split at hr
      · exact absurd hr (by simp)
      · split at hr
        · exact absurd hr (by simp)
        · rw [if_neg (by simp)] at hr
          obtain rfl := Option.some.inj hr
          rfl
  refine ⟨husage, fun lastKey st hcg helem => ?_⟩
  have hgrp : isGroupCode r.code = false := elem_not_group r.code helem
  obtain ⟨m0, cg0⟩ := st
  have hcg0 : cg0 = none := hcg
  subst hcg0
  simp only [vdaRow, hr]
  simp [hgrp, helem, husage]

/-- **C9, witness.** -/
theorem C9_witness :
    (⟨"3035", "Party qualifier", "an3", "ZZ", ""⟩ : RowInfo).usage = "" ∧
    vdaRow [["h1", "h2"], ["3035 Party qualifier", "an3", "ZZ", "--"], ["x", "y"]]
        "NAD" ⟨[("NAD", ⟨"NAD", "", []⟩)], none⟩ 1 =
      ⟨appendItemToSeg [("NAD", ⟨"NAD", "", []⟩)] "NAD"
          (.el ⟨"3035", "Party qualifier", "an3", "ZZ", ""⟩), none⟩ :=
  have h := C9_theorem [["h1", "h2"], ["3035 Party qualifier", "an3", "ZZ", "--"], ["x", "y"]]
    1 ⟨"3035", "Party qualifier", "an3", "ZZ", ""⟩ (by decide) (by decide)
  ⟨h.1, h.2 "NAD" ⟨[("NAD", ⟨"NAD", "", []⟩)], none⟩ rfl (by decide)⟩

end EDI
